import Mathlib

/-!
Verification of the Squirrel memory daemon (Python sources under `src/sqrl/`)
against its natural-language specification.

The development shallowly embeds the three subsystems the claims touch:
* the JSON-RPC transport (`src/sqrl/ipc/server.py`),
* the SQLite-backed storage layer (`src/sqrl/storage.py`),
* the episode-processing handler (`src/sqrl/ipc/handlers.py`).

Conventions of the embedding:
* machine integers are `Int`/`Nat`; timestamps are abstract `Nat` clock values
  supplied by the caller (the Python code reads a wall clock);
* generated UUIDs are modelled by a per-store `nextId : Nat` counter — all
  that matters for the claims is freshness/uniqueness of generated ids;
* Python exceptions are modelled explicitly: `ValueError`/`AttributeError`
  raised during request parsing become constructors of `ParseOutcome`, and a
  propagating exception out of `_handle_request` becomes
  `PyOutcome.attributeError`; a propagating storage exception becomes
  `Except.error`;
* `async` is elided: every handler is a plain function.
-/

/-! ## JSON values

`json.loads` either fails or produces a JSON value.  The embedding works with
the parse *result* (`Except String Json`, the error component being the
`JSONDecodeError` message) rather than with raw byte strings. -/

inductive Json : Type where
  | null : Json
  | bool (b : Bool) : Json
  | num (n : Int) : Json
  | str (s : String) : Json
  | arr (elems : List Json) : Json
  | obj (fields : List (String × Json)) : Json

/-- Lookup in a parsed JSON object.  `json.loads` builds a Python `dict`, in
which a duplicated key keeps its last occurrence, hence the lookup on the
reversed field list. -/
def jlookup (fields : List (String × Json)) (k : String) : Option Json :=
  (fields.reverse.find? (fun p => p.1 == k)).map (fun p => p.2)

/-! ## Propagation of `"Parse error" in str(e)`

`_handle_request` chooses the error code by testing whether the substring
`"Parse error"` occurs in the exception message. -/

/-- Predicate `hasPre pat text` : `pat` is a prefix of `text` (character lists). -/
def hasPre : List Char → List Char → Bool
  | [], _ => true
  | _ :: _, [] => false
  | p :: ps, c :: cs => p == c && hasPre ps cs

/-- Predicate `hasSubList pat text` : `pat` occurs contiguously inside `text`. -/
def hasSubList (pat : List Char) : List Char → Bool
  | [] => hasPre pat []
  | c :: cs => hasPre pat (c :: cs) || hasSubList pat cs

/-- The Python test `pat in s` on strings. -/
def strHasSub (s pat : String) : Bool :=
  hasSubList pat.data s.data

/-! ## `RPCRequest.from_json` (`server.py` lines 48–71) -/

structure RPCRequest where
  method : String
  params : List (String × Json)
  id : Option Json

/-- Outcome of running `RPCRequest.from_json` under Python exception
semantics: a parsed request, a raised `ValueError`, or a raised
`AttributeError` (the `obj.get` calls are attribute accesses that fail on any
non-`dict` JSON value). -/
inductive ParseOutcome : Type where
  | ok (req : RPCRequest) : ParseOutcome
  | valueError (msg : String) : ParseOutcome
  | attributeError : ParseOutcome

/-- The `obj.get("jsonrpc") != "2.0"` test (negated): true iff the field is
present and equal to the string `"2.0"`. -/
def versionOk (fields : List (String × Json)) : Bool :=
  match jlookup fields "jsonrpc" with
  | some (.str v) => v == "2.0"
  | _ => false

/-- The `method = obj.get("method"); isinstance(method, str)` check. -/
def methodStr (fields : List (String × Json)) : Option String :=
  match jlookup fields "method" with
  | some (.str m) => some m
  | _ => none

/-- The `params = obj.get("params", {})` lookup followed by the `isinstance(params, dict)`
check: `none` means the check failed (present but not an object). -/
def paramsField (fields : List (String × Json)) : Option (List (String × Json)) :=
  match jlookup fields "params" with
  | none => some []
  | some (.obj ps) => some ps
  | some _ => none

/-- Model of `RPCRequest.from_json`, applied to the result of `json.loads`. -/
def fromJson (data : Except String Json) : ParseOutcome :=
  match data with
  | .error e => .valueError ("Parse error: " ++ e)
  | .ok (.obj fields) =>
    if versionOk fields then
      match methodStr fields with
      | some m =>
        match paramsField fields with
        | some ps => .ok ⟨m, ps, jlookup fields "id"⟩
        | none => .valueError "Params must be object"
      | none => .valueError "Missing or invalid method"
    else .valueError "Invalid JSON-RPC version"
  | .ok _ => .attributeError

/-! ## `_handle_request` (`server.py` lines 115–154) -/

/-- A serialized response envelope (`make_response` / `make_error`,
`server.py` lines 74–89); the `data` member of `RPCError` is `None` on every
path of `_handle_request`, so it is omitted. -/
inductive RPCResponse : Type where
  | success (result : Json) (id : Option Json) : RPCResponse
  | error (code : Int) (message : String) (id : Option Json) : RPCResponse

def respId : RPCResponse → Option Json
  | .success _ i => i
  | .error _ _ i => i

/-- Behaviour of a registered handler on given params: return a value, or
raise an exception whose optional `code` attribute is numeric. -/
inductive HandlerOut : Type where
  | ok (result : Json) : HandlerOut
  | exc (code : Option Int) (msg : String) : HandlerOut

def MethodHandler : Type := List (String × Json) → HandlerOut

/-- Outcome of `_handle_request`: a returned response string, or a
propagating `AttributeError` (not caught by the `except ValueError` clause). -/
inductive PyOutcome (α : Type) : Type where
  | ok (a : α) : PyOutcome α
  | attributeError : PyOutcome α

/-- Model of `IPCServer._handle_request`.  `handlers` models `self.handlers`. -/
def handleRequest (data : Except String Json)
    (handlers : List (String × MethodHandler)) : PyOutcome RPCResponse :=
  match fromJson data with
  | .attributeError => .attributeError
  | .valueError msg =>
    .ok (.error (if strHasSub msg "Parse error" then -32700 else -32600) msg none)
  | .ok req =>
    match (handlers.find? (fun p => p.1 == req.method)).map (fun p => p.2) with
    | none => .ok (.error (-32601) ("Method not found: " ++ req.method) req.id)
    | some h =>
      match h req.params with
      | .ok v => .ok (.success v req.id)
      | .exc (some c) m => .ok (.error c m req.id)
      | .exc none m => .ok (.error (-32603) ("Internal error: " ++ m) req.id)

/-! ## Storage layer (`storage.py`)

Each store is a SQLite table.  A table state is modelled as the list of its
rows in insertion (rowid) order plus a fresh-id counter standing for the
UUID generator.  `ORDER BY use_count DESC` over the `use_count DESC` index
returns rows sorted by descending `use_count` with ties in rowid
(= insertion) order, i.e. a stable descending sort. -/

structure StyleRecord where
  id : Nat
  text : String
  useCount : Nat
  createdAt : Nat
  updatedAt : Nat
deriving DecidableEq

structure UserStyleStore where
  rows : List StyleRecord
  nextId : Nat
deriving DecidableEq

def emptyStyleStore : UserStyleStore := ⟨[], 0⟩

/-- Model of `UserStyleStorage.add` (`storage.py` lines 95–134).  `now` is the
`_now_iso()` timestamp.  Returns the new store state and the `UserStyle`
object the method returns (note the source sets `created_at=now` even on the
increment path of the *returned* object; the stored row keeps its original
`created_at`). -/
def addStyle (s : UserStyleStore) (text : String) (now : Nat) :
    UserStyleStore × StyleRecord :=
  match s.rows.find? (fun r => r.text == text) with
  | some r =>
    (⟨s.rows.map (fun q =>
        if q.id == r.id then { q with useCount := r.useCount + 1, updatedAt := now } else q),
      s.nextId⟩,
     ⟨r.id, text, r.useCount + 1, now, now⟩)
  | none =>
    (⟨s.rows ++ [⟨s.nextId, text, 1, now, now⟩], s.nextId + 1⟩,
     ⟨s.nextId, text, 1, now, now⟩)

/-- Model of `UserStyleStorage.delete` (`storage.py` lines 144–150): `DELETE ... WHERE
id = ?`, returning `rowcount > 0`. -/
def deleteStyle (s : UserStyleStore) (styleId : Nat) : UserStyleStore × Bool :=
  (⟨s.rows.filter (fun r => r.id != styleId), s.nextId⟩,
   s.rows.any (fun r => r.id == styleId))

/-- Model of `UserStyleStorage.get_all` (`storage.py` lines 135–142):
`ORDER BY use_count DESC`, stable in rowid order. -/
def getAllStyles (s : UserStyleStore) : List StyleRecord :=
  s.rows.mergeSort (fun a b => b.useCount ≤ a.useCount)

structure MemoryRecord where
  id : Nat
  category : String
  subcategory : String
  text : String
  useCount : Nat
  createdAt : Nat
  updatedAt : Nat
deriving DecidableEq

structure ProjectMemoryStore where
  rows : List MemoryRecord
  nextId : Nat
deriving DecidableEq

def emptyMemoryStore : ProjectMemoryStore := ⟨[], 0⟩

/-- Model of `ProjectMemoryStorage.add` (`storage.py` lines 172–216) for a `str`
category (the annotated type).  The caller in `handlers.py` always uses the
default `subcategory="main"`; here the subcategory is passed explicitly. -/
def addMemory (s : ProjectMemoryStore) (category text subcategory : String)
    (now : Nat) : ProjectMemoryStore × MemoryRecord :=
  match s.rows.find? (fun r => r.category == category && r.text == text) with
  | some r =>
    (⟨s.rows.map (fun q =>
        if q.id == r.id then { q with useCount := r.useCount + 1, updatedAt := now } else q),
      s.nextId⟩,
     ⟨r.id, category, subcategory, text, r.useCount + 1, now, now⟩)
  | none =>
    (⟨s.rows ++ [⟨s.nextId, category, subcategory, text, 1, now, now⟩], s.nextId + 1⟩,
     ⟨s.nextId, category, subcategory, text, 1, now, now⟩)

/-- Model of `ProjectMemoryStorage.delete` (`storage.py` lines 247–253). -/
def deleteMemory (s : ProjectMemoryStore) (memoryId : Nat) :
    ProjectMemoryStore × Bool :=
  (⟨s.rows.filter (fun r => r.id != memoryId), s.nextId⟩,
   s.rows.any (fun r => r.id == memoryId))

/-- Model of `ProjectMemoryStorage.get_all` (`storage.py` lines 218–225). -/
def getAllMemories (s : ProjectMemoryStore) : List MemoryRecord :=
  s.rows.mergeSort (fun a b => b.useCount ≤ a.useCount)

/-- Schema invariants of the `user_styles` table: `id` is the primary key,
`text` is `UNIQUE`, and the id counter dominates every stored id (freshness
of generated ids). -/
def styleWF (s : UserStyleStore) : Prop :=
  s.rows.Pairwise (fun a b => a.id ≠ b.id ∧ a.text ≠ b.text) ∧
  ∀ r ∈ s.rows, r.id < s.nextId

/-- Schema invariants of the `project_memories` table: primary-key ids,
the `(category, text)` unique key maintained by `add`, fresh id counter. -/
def memoryWF (s : ProjectMemoryStore) : Prop :=
  s.rows.Pairwise (fun a b => a.id ≠ b.id ∧ (a.category ≠ b.category ∨ a.text ≠ b.text)) ∧
  ∀ r ∈ s.rows, r.id < s.nextId

instance (s : UserStyleStore) : Decidable (styleWF s) := by
  unfold styleWF; infer_instance

instance (s : ProjectMemoryStore) : Decidable (memoryWF s) := by
  unfold memoryWF; infer_instance

/-! ## Episode processing (`handlers.py`)

`EpisodeEvent` and `ProcessEpisodeResponse` live in `models/episode.py` and
`models/response.py`, which are not part of the available sources; their
shapes below are modelled from the spec (§3, §6) and from how `handlers.py`
uses them.  The scan / extract LLM capabilities are opaque collaborators and
enter the model as oracle functions. -/

/-- Modelled from the spec: `EpisodeEvent` (§3: role ∈ {user, assistant,
tool}, content summary), file `models/episode.py` missing from the sources. -/
structure EpisodeEvent where
  role : String
  content_summary : String
deriving DecidableEq

inductive MemoryOperation : Type where
  | ADD : MemoryOperation
  | UPDATE : MemoryOperation
  | DELETE : MemoryOperation
deriving DecidableEq

/-- Shape of `UserStyleOp` (`models/extraction.py` lines 24–29).  Target ids are store
ids, hence `Nat` in the embedding. -/
structure UserStyleOp where
  op : MemoryOperation
  text : Option String
  target_id : Option Nat
deriving DecidableEq

/-- Shape of `ProjectMemoryOp` (`models/extraction.py` lines 32–39). -/
structure ProjectMemoryOp where
  op : MemoryOperation
  category : Option String
  subcategory : Option String
  text : Option String
  target_id : Option Nat
deriving DecidableEq

/-- Scanner output as consumed by `handle_process_episode`
(`scanner_output.has_patterns` / `.indices`). -/
structure ScannerOut where
  has_patterns : Bool
  indices : List Nat

/-- Shape of `ExtractorOutput` (`models/extraction.py` lines 42–47), the part the
persist stage consumes. -/
structure ExtractorOut where
  user_styles : List UserStyleOp
  project_memories : List ProjectMemoryOp

/-- Modelled from the spec: `ProcessEpisodeResponse` (§3, §6: skipped flag,
optional reason, accepted operations), file `models/response.py` missing
from the sources. -/
structure ProcessEpisodeResponse where
  skipped : Bool
  skip_reason : Option String
  user_styles : List UserStyleOp
  project_memories : List ProjectMemoryOp
deriving DecidableEq

/-- Model of `_extract_user_messages` (`handlers.py` lines 20–22). -/
def extractUserMessages (events : List EpisodeEvent) : List String :=
  events.filterMap (fun e => if e.role == "user" then some e.content_summary else none)

/-- The `user_indices` list of `_get_ai_turns` (`handlers.py` line 31). -/
def userIndices (events : List EpisodeEvent) : List Nat :=
  (events.enum.filter (fun p => p.2.role == "user")).map (fun p => p.1)

/-- The event slice `events[start_event_idx:trigger_event_idx]` computed by
`_get_ai_turns` (`handlers.py` lines 25–46); `[]` both for an out-of-range
trigger (the early `return ""`) and for an empty slice. -/
def aiTurnEvents (events : List EpisodeEvent) (triggerIndex : Nat) : List EpisodeEvent :=
  let uidx := userIndices events
  if triggerIndex ≥ uidx.length then []
  else
    let triggerEventIdx := uidx.getD triggerIndex 0
    let startTurn := triggerIndex - 3
    let startEventIdx := if startTurn > 0 then uidx.getD startTurn 0 else 0
    (events.drop startEventIdx).take (triggerEventIdx - startEventIdx)

/-- Model of the `_get_ai_turns` result string (`handlers.py` line 49). -/
def getAiTurns (events : List EpisodeEvent) (triggerIndex : Nat) : String :=
  String.intercalate "\n"
    ((aiTurnEvents events triggerIndex).map
      (fun e => "[" ++ e.role ++ "] " ++ e.content_summary))

/-- The user-style persist loop (`handlers.py` lines 152–154):
`for style in all_user_styles: if style.text: user_storage.add(style.text)`.
`if style.text:` is false for both `None` and `""`. -/
def persistUserStyles (ops : List UserStyleOp) (s : UserStyleStore) (now : Nat) :
    UserStyleStore :=
  match ops with
  | [] => s
  | op :: rest =>
    match op.text with
    | some t =>
      if t = "" then persistUserStyles rest s now
      else persistUserStyles rest (addStyle s t now).1 now
    | none => persistUserStyles rest s now

/-- The project-memory persist loop (`handlers.py` lines 163–165):
`for memory in all_project_memories: if memory.text:
project_storage.add(memory.category, memory.text)`.  The pydantic field
`memory.category` may be `None`; SQLite then finds no match (`category =
NULL` never holds) and the `INSERT` violates the `NOT NULL` constraint, so
the call raises — modelled as `Except.error`, which propagates (aborting the
loop) exactly as the Python exception does. -/
def persistProjectMemories (ops : List ProjectMemoryOp) (s : ProjectMemoryStore)
    (now : Nat) : Except Unit ProjectMemoryStore :=
  match ops with
  | [] => .ok s
  | op :: rest =>
    match op.text with
    | some t =>
      if t = "" then persistProjectMemories rest s now
      else
        match op.category with
        | some c => persistProjectMemories rest (addMemory s c t "main" now).1 now
        | none => .error ()
    | none => persistProjectMemories rest s now

/-- Model of `handle_process_episode` (`handlers.py` lines 52–178), with the opaque
LLM capabilities as oracles: `scan` models `UserScanner.scan` on the user
messages, `extract` models `MemoryExtractor.extract` applied to a trigger
message and its AI-context window (its further read-only arguments —
project id/root, the pre-loaded existing styles/memories and the cached
project summary — do not influence any state the claims mention and are
elided).  Returns the response together with the resulting store states;
`Except.error` is a propagating storage exception. -/
def processEpisode (scan : List String → ScannerOut)
    (extract : String → String → ExtractorOut)
    (events : List EpisodeEvent) (ust : UserStyleStore) (pst : ProjectMemoryStore)
    (now : Nat) :
    Except Unit (ProcessEpisodeResponse × UserStyleStore × ProjectMemoryStore) :=
  let user_messages := extractUserMessages events
  if user_messages.isEmpty then
    .ok (⟨true, some "No user messages in episode", [], []⟩, ust, pst)
  else
    let so := scan user_messages
    if !so.has_patterns then
      .ok (⟨true, some "No behavioral patterns detected", [], []⟩, ust, pst)
    else
      let outs := so.indices.filterMap (fun ti =>
        if ti ≥ user_messages.length then none
        else some (extract (user_messages.getD ti "") (getAiTurns events ti)))
      let all_user_styles := (outs.map (fun o => o.user_styles)).flatten
      let all_project_memories := (outs.map (fun o => o.project_memories)).flatten
      let ust1 := if all_user_styles.isEmpty then ust
                  else persistUserStyles all_user_styles ust now
      match (if all_project_memories.isEmpty then Except.ok pst
             else persistProjectMemories all_project_memories pst now) with
      | .error e => .error e
      | .ok pst1 => .ok (⟨false, none, all_user_styles, all_project_memories⟩, ust1, pst1)

/-! ### Instrumented persist loop for the isolation claim

To reason about which operations the persist stage *attempts* when the
storage layer can fail, the same user-style loop is re-read with an
arbitrary fallible upsert: `failOn t = true` means `user_storage.add(t)`
raises.  The result is the list of texts on which `add` was invoked, in
order, and whether the loop ran to completion (`false` = the exception
propagated out of the loop). -/
def persistStyleAttempts (failOn : String → Bool) :
    List UserStyleOp → List String × Bool
  | [] => ([], true)
  | op :: rest =>
    match op.text with
    | some t =>
      if t = "" then persistStyleAttempts failOn rest
      else if failOn t then ([t], false)
      else
        let r := persistStyleAttempts failOn rest
        (t :: r.1, r.2)
    | none => persistStyleAttempts failOn rest

/-- The non-empty texts of a batch of style operations, in order — exactly
the texts the loop upserts when nothing fails. -/
def styleTexts (ops : List UserStyleOp) : List String :=
  ops.filterMap (fun op =>
    match op.text with
    | some t => if t = "" then none else some t
    | none => none)

/-- The `(category, text)` pairs the memory loop upserts when every
operation with non-empty text carries a category. -/
def memoryKeys (ops : List ProjectMemoryOp) : List (String × String) :=
  ops.filterMap (fun op =>
    match op.text, op.category with
    | some t, some c => if t = "" then none else some (c, t)
    | _, _ => none)

/-- Texts up to and including the first failing one. -/
def takeThroughFail (failOn : String → Bool) : List String → List String
  | [] => []
  | t :: ts => if failOn t then [t] else t :: takeThroughFail failOn ts

/-! ### Operation sequences on a store

All mutation of a store goes through `add` and `delete`; a store state is
reachable iff it results from a sequence of these operations on the empty
store. -/

inductive StyleStoreOp : Type where
  | add (text : String) (now : Nat) : StyleStoreOp
  | del (styleId : Nat) : StyleStoreOp

def applyStyleOp (s : UserStyleStore) : StyleStoreOp → UserStyleStore
  | .add t n => (addStyle s t n).1
  | .del i => (deleteStyle s i).1

def applyStyleOps (ops : List StyleStoreOp) (s : UserStyleStore) : UserStyleStore :=
  ops.foldl applyStyleOp s

inductive MemoryStoreOp : Type where
  | add (category text subcategory : String) (now : Nat) : MemoryStoreOp
  | del (memoryId : Nat) : MemoryStoreOp

def applyMemoryOp (s : ProjectMemoryStore) : MemoryStoreOp → ProjectMemoryStore
  | .add c t sub n => (addMemory s c t sub n).1
  | .del i => (deleteMemory s i).1

def applyMemoryOps (ops : List MemoryStoreOp) (s : ProjectMemoryStore) :
    ProjectMemoryStore :=
  ops.foldl applyMemoryOp s

/-! ## Helper lemmas on the stores -/

theorem style_rel_symm :
    Symmetric (fun (a b : StyleRecord) => a.id ≠ b.id ∧ a.text ≠ b.text) := by
  intro a b h
  exact ⟨fun e => h.1 e.symm, fun e => h.2 e.symm⟩

theorem memory_rel_symm :
    Symmetric (fun (a b : MemoryRecord) =>
      a.id ≠ b.id ∧ (a.category ≠ b.category ∨ a.text ≠ b.text)) := by
  intro a b h
  refine ⟨fun e => h.1 e.symm, ?_⟩
  rcases h.2 with hc | ht
  · exact Or.inl fun e => hc e.symm
  · exact Or.inr fun e => ht e.symm

theorem style_id_unique {rows : List StyleRecord}
    (hpw : rows.Pairwise (fun a b => a.id ≠ b.id ∧ a.text ≠ b.text))
    {q r : StyleRecord} (hq : q ∈ rows) (hr : r ∈ rows) (h : q.id = r.id) :
    q = r := by
  by_contra hne
  exact (List.Pairwise.forall style_rel_symm hpw hq hr hne).1 h

theorem memory_id_unique {rows : List MemoryRecord}
    (hpw : rows.Pairwise (fun a b =>
      a.id ≠ b.id ∧ (a.category ≠ b.category ∨ a.text ≠ b.text)))
    {q r : MemoryRecord} (hq : q ∈ rows) (hr : r ∈ rows) (h : q.id = r.id) :
    q = r := by
  by_contra hne
  exact (List.Pairwise.forall memory_rel_symm hpw hq hr hne).1 h

theorem find_style_of_mem {rows : List StyleRecord} {t : String} {r : StyleRecord}
    (hpw : rows.Pairwise (fun a b => a.id ≠ b.id ∧ a.text ≠ b.text))
    (hr : r ∈ rows) (ht : r.text = t) :
    rows.find? (fun x => x.text == t) = some r := by
  induction rows with
  | nil => cases hr
  | cons x xs ih =>
    rcases List.mem_cons.mp hr with h | h
    · subst h
      exact List.find?_cons_of_pos _ (by simp [ht])
    · have hx : x.text ≠ t := by
        have := ((List.pairwise_cons.mp hpw).1 r h).2
        rw [ht] at this
        exact this
      rw [List.find?_cons_of_neg _ (by simp [hx])]
      exact ih (List.pairwise_cons.mp hpw).2 h

theorem find_memory_of_mem {rows : List MemoryRecord} {c t : String} {r : MemoryRecord}
    (hpw : rows.Pairwise (fun a b =>
      a.id ≠ b.id ∧ (a.category ≠ b.category ∨ a.text ≠ b.text)))
    (hr : r ∈ rows) (hc : r.category = c) (ht : r.text = t) :
    rows.find? (fun x => x.category == c && x.text == t) = some r := by
  induction rows with
  | nil => cases hr
  | cons x xs ih =>
    rcases List.mem_cons.mp hr with h | h
    · subst h
      exact List.find?_cons_of_pos _ (by simp [hc, ht])
    · have hx : x.category ≠ c ∨ x.text ≠ t := by
        have := ((List.pairwise_cons.mp hpw).1 r h).2
        rw [hc] at this
        rw [ht] at this
        exact this
      refine Eq.trans (List.find?_cons_of_neg _ ?_) (ih (List.pairwise_cons.mp hpw).2 h)
      rcases hx with hx | hx <;> simp [hx]

theorem find_style_of_absent {rows : List StyleRecord} {t : String}
    (h : ∀ r ∈ rows, r.text ≠ t) :
    rows.find? (fun x => x.text == t) = none := by
  rw [List.find?_eq_none]
  intro x hx
  simp [h x hx]

theorem find_memory_of_absent {rows : List MemoryRecord} {c t : String}
    (h : ∀ r ∈ rows, r.category ≠ c ∨ r.text ≠ t) :
    rows.find? (fun x => x.category == c && x.text == t) = none := by
  rw [List.find?_eq_none]
  intro x hx
  rcases h x hx with hx' | hx' <;> simp [hx']

theorem addStyle_found (s : UserStyleStore) (t : String) (n : Nat)
    (hwf : styleWF s) {r : StyleRecord} (hr : r ∈ s.rows) (ht : r.text = t) :
    (addStyle s t n).2.id = r.id ∧
    (addStyle s t n).1.rows =
      s.rows.map (fun q => if q.id = r.id then
        { q with useCount := q.useCount + 1, updatedAt := n } else q) := by
  have hf := find_style_of_mem hwf.1 hr ht
  unfold addStyle
  rw [hf]
  refine ⟨rfl, ?_⟩
  apply List.map_congr_left
  intro q hq
  by_cases hid : q.id = r.id
  · have hqr : q = r := style_id_unique hwf.1 hq hr hid
    subst hqr
    simp
  · simp [hid]

theorem addStyle_absent (s : UserStyleStore) (t : String) (n : Nat)
    (h : ∀ r ∈ s.rows, r.text ≠ t) :
    addStyle s t n =
      (⟨s.rows ++ [⟨s.nextId, t, 1, n, n⟩], s.nextId + 1⟩, ⟨s.nextId, t, 1, n, n⟩) := by
  unfold addStyle
  rw [find_style_of_absent h]

theorem addStyle_twice (s : UserStyleStore) (t : String) (n₁ n₂ : Nat)
    (h : ∀ r ∈ s.rows, r.text ≠ t) :
    (addStyle (addStyle s t n₁).1 t n₂).2.id = (addStyle s t n₁).2.id ∧
    ((addStyle (addStyle s t n₁).1 t n₂).1.rows.filter (fun r => r.text == t)) =
      [⟨s.nextId, t, 2, n₁, n₂⟩] := by
  rw [addStyle_absent s t n₁ h]
  have hfind : ((s.rows ++ [(⟨s.nextId, t, 1, n₁, n₁⟩ : StyleRecord)]).find?
      (fun x => x.text == t)) = some ⟨s.nextId, t, 1, n₁, n₁⟩ := by
    rw [List.find?_append, find_style_of_absent h]
    simp
  unfold addStyle
  rw [hfind]
  refine ⟨rfl, ?_⟩
  simp only [List.map_append, List.filter_append]
  have h₁ : ((s.rows.map (fun q => if q.id == s.nextId then
      { q with useCount := 1 + 1, updatedAt := n₂ } else q)).filter
        (fun r => r.text == t)) = [] := by
    rw [List.filter_eq_nil_iff]
    intro a ha
    rcases List.mem_map.mp ha with ⟨q, hq, rfl⟩
    by_cases hid : q.id == s.nextId <;> simp [hid, h q hq]
  rw [h₁]
  simp

theorem addMemory_found (m : ProjectMemoryStore) (c t sub : String) (n : Nat)
    (hwf : memoryWF m) {r : MemoryRecord} (hr : r ∈ m.rows)
    (hc : r.category = c) (ht : r.text = t) :
    (addMemory m c t sub n).2.id = r.id ∧
    (addMemory m c t sub n).1.rows =
      m.rows.map (fun q => if q.id = r.id then
        { q with useCount := q.useCount + 1, updatedAt := n } else q) := by
  have hf := find_memory_of_mem hwf.1 hr hc ht
  unfold addMemory
  rw [hf]
  refine ⟨rfl, ?_⟩
  apply List.map_congr_left
  intro q hq
  by_cases hid : q.id = r.id
  · have hqr : q = r := memory_id_unique hwf.1 hq hr hid
    subst hqr
    simp
  · simp [hid]

theorem addMemory_absent (m : ProjectMemoryStore) (c t sub : String) (n : Nat)
    (h : ∀ r ∈ m.rows, r.category ≠ c ∨ r.text ≠ t) :
    addMemory m c t sub n =
      (⟨m.rows ++ [⟨m.nextId, c, sub, t, 1, n, n⟩], m.nextId + 1⟩,
       ⟨m.nextId, c, sub, t, 1, n, n⟩) := by
  unfold addMemory
  rw [find_memory_of_absent h]

theorem addMemory_twice (m : ProjectMemoryStore) (c t sub : String) (n₁ n₂ : Nat)
    (h : ∀ r ∈ m.rows, r.category ≠ c ∨ r.text ≠ t) :
    (addMemory (addMemory m c t sub n₁).1 c t sub n₂).2.id =
      (addMemory m c t sub n₁).2.id ∧
    ((addMemory (addMemory m c t sub n₁).1 c t sub n₂).1.rows.filter
        (fun r => r.category == c && r.text == t)) =
      [⟨m.nextId, c, sub, t, 2, n₁, n₂⟩] := by
  rw [addMemory_absent m c t sub n₁ h]
  have hfind : ((m.rows ++ [(⟨m.nextId, c, sub, t, 1, n₁, n₁⟩ : MemoryRecord)]).find?
      (fun x => x.category == c && x.text == t)) = some ⟨m.nextId, c, sub, t, 1, n₁, n₁⟩ := by
    rw [List.find?_append, find_memory_of_absent h]
    simp
  unfold addMemory
  rw [hfind]
  refine ⟨rfl, ?_⟩
  simp only [List.map_append, List.filter_append]
  have h₁ : ((m.rows.map (fun q => if q.id == m.nextId then
      { q with useCount := 1 + 1, updatedAt := n₂ } else q)).filter
        (fun r => r.category == c && r.text == t)) = [] := by
    rw [List.filter_eq_nil_iff]
    intro a ha
    rcases List.mem_map.mp ha with ⟨q, hq, rfl⟩
    rcases h q hq with hq' | hq' <;>
      by_cases hid : q.id == m.nextId <;> simp [hid, hq']
  rw [h₁]
  simp

/-- C1: `add` is an upsert on both stores.  On any store state satisfying the
schema invariants, for the unique key (exact `text` for user styles, exact
`(category, text)` for project memories): if a record with that key exists,
`add` increments its `use_count` by exactly 1, refreshes its updated
timestamp, leaves every other record unchanged, and returns the existing
id of the existing record; otherwise `add` appends exactly one new record with the freshly
generated id (distinct from every stored id) and `use_count = 1`.  Calling
`add` twice on a store initially lacking the key leaves exactly one record
for that key, with `use_count = 2`, and both calls return the same id. -/
theorem add_upsert_idempotent
    (s : UserStyleStore) (t : String) (n₁ n₂ : Nat)
    (m : ProjectMemoryStore) (c mt sub : String) (k₁ k₂ : Nat)
    (hs : styleWF s) (hm : memoryWF m) :
    ((∀ r ∈ s.rows, r.text = t →
      (addStyle s t n₁).2.id = r.id ∧
      (addStyle s t n₁).1.rows =
        s.rows.map (fun q => if q.id = r.id then
          { q with useCount := q.useCount + 1, updatedAt := n₁ } else q)) ∧
    ((∀ r ∈ s.rows, r.text ≠ t) →
      (addStyle s t n₁).1.rows = s.rows ++ [⟨s.nextId, t, 1, n₁, n₁⟩] ∧
      (addStyle s t n₁).2 = ⟨s.nextId, t, 1, n₁, n₁⟩ ∧
      ∀ r ∈ s.rows, r.id ≠ s.nextId) ∧
    ((∀ r ∈ s.rows, r.text ≠ t) →
      (addStyle (addStyle s t n₁).1 t n₂).2.id = (addStyle s t n₁).2.id ∧
      ((addStyle (addStyle s t n₁).1 t n₂).1.rows.filter (fun r => r.text == t)) =
        [⟨s.nextId, t, 2, n₁, n₂⟩])) ∧
    ((∀ r ∈ m.rows, r.category = c → r.text = mt →
      (addMemory m c mt sub k₁).2.id = r.id ∧
      (addMemory m c mt sub k₁).1.rows =
        m.rows.map (fun q => if q.id = r.id then
          { q with useCount := q.useCount + 1, updatedAt := k₁ } else q)) ∧
    ((∀ r ∈ m.rows, r.category ≠ c ∨ r.text ≠ mt) →
      (addMemory m c mt sub k₁).1.rows = m.rows ++ [⟨m.nextId, c, sub, mt, 1, k₁, k₁⟩] ∧
      (addMemory m c mt sub k₁).2 = ⟨m.nextId, c, sub, mt, 1, k₁, k₁⟩ ∧
      ∀ r ∈ m.rows, r.id ≠ m.nextId) ∧
    ((∀ r ∈ m.rows, r.category ≠ c ∨ r.text ≠ mt) →
      (addMemory (addMemory m c mt sub k₁).1 c mt sub k₂).2.id =
        (addMemory m c mt sub k₁).2.id ∧
      ((addMemory (addMemory m c mt sub k₁).1 c mt sub k₂).1.rows.filter
          (fun r => r.category == c && r.text == mt)) =
        [⟨m.nextId, c, sub, mt, 2, k₁, k₂⟩])) := by
  refine ⟨⟨fun r hr ht => addStyle_found s t n₁ hs hr ht, fun h => ?_,
           fun h => addStyle_twice s t n₁ n₂ h⟩,
          ⟨fun r hr hc ht => addMemory_found m c mt sub k₁ hm hr hc ht, fun h => ?_,
           fun h => addMemory_twice m c mt sub k₁ k₂ h⟩⟩
  · rw [addStyle_absent s t n₁ h]
    exact ⟨rfl, rfl, fun r hr => Nat.ne_of_lt (hs.2 r hr)⟩
  · rw [addMemory_absent m c mt sub k₁ h]
    exact ⟨rfl, rfl, fun r hr => Nat.ne_of_lt (hm.2 r hr)⟩

/-- Witness for C1: a concrete store holding `"x"`, a fresh key `"y"`, and a
concrete project-memory store; the theorem is applied at these inputs. -/
theorem add_upsert_idempotent_witness :
    styleWF ⟨[⟨0, "x", 1, 0, 0⟩], 1⟩ ∧ memoryWF ⟨[], 0⟩ ∧
    (addStyle ⟨[⟨0, "x", 1, 0, 0⟩], 1⟩ "x" 5).2.id = 0 ∧
    ((addStyle (addStyle ⟨[⟨0, "x", 1, 0, 0⟩], 1⟩ "y" 5).1 "y" 6).1.rows.filter
        (fun r => r.text == "y")) = [⟨1, "y", 2, 5, 6⟩] ∧
    ((addMemory (addMemory ⟨[], 0⟩ "c" "z" "main" 7).1 "c" "z" "main" 8).1.rows.filter
        (fun r => r.category == "c" && r.text == "z")) = [⟨0, "c", "main", "z", 2, 7, 8⟩] := by
  have h := add_upsert_idempotent ⟨[⟨0, "x", 1, 0, 0⟩], 1⟩ "x" 5 6 ⟨[], 0⟩ "c" "z" "main" 7 8
    (by decide) (by decide)
  have h' := add_upsert_idempotent ⟨[⟨0, "x", 1, 0, 0⟩], 1⟩ "y" 5 6 ⟨[], 0⟩ "c" "z" "main" 7 8
    (by decide) (by decide)
  refine ⟨by decide, by decide, ?_, ?_, ?_⟩
  · exact (h.1.1 ⟨0, "x", 1, 0, 0⟩ (by decide) rfl).1
  · exact (h'.1.2.2 (by decide)).2
  · exact (h.2.2.2 (by decide)).2

theorem styleWF_addStyle (s : UserStyleStore) (t : String) (n : Nat)
    (h : styleWF s) : styleWF (addStyle s t n).1 := by
  unfold addStyle
  cases hf : s.rows.find? (fun r => r.text == t) with
  | some r =>
    refine ⟨?_, ?_⟩
    · rw [List.pairwise_map]
      refine h.1.imp ?_
      intro a b hab
      by_cases ha : a.id == r.id <;> by_cases hb : b.id == r.id <;>
        simpa [ha, hb] using hab
    · intro q hq
      rcases List.mem_map.mp hq with ⟨p, hp, rfl⟩
      by_cases hid : p.id == r.id <;> simpa [hid] using h.2 p hp
  | none =>
    refine ⟨?_, ?_⟩
    · rw [List.pairwise_append]
      refine ⟨h.1, List.pairwise_singleton _ _, ?_⟩
      intro a ha b hb
      rw [List.mem_singleton] at hb
      subst hb
      refine ⟨Nat.ne_of_lt (h.2 a ha), ?_⟩
      have := List.find?_eq_none.mp hf a ha
      simpa using this
    · intro q hq
      rcases List.mem_append.mp hq with hq | hq
      · exact Nat.lt_trans (h.2 q hq) (Nat.lt_succ_self _)
      · rw [List.mem_singleton] at hq
        subst hq
        exact Nat.lt_succ_self _

theorem styleWF_deleteStyle (s : UserStyleStore) (i : Nat)
    (h : styleWF s) : styleWF (deleteStyle s i).1 := by
  refine ⟨List.Pairwise.sublist (List.filter_sublist _) h.1, ?_⟩
  intro q hq
  exact h.2 q (List.mem_of_mem_filter hq)

theorem styleWF_applyStyleOps (ops : List StyleStoreOp) :
    ∀ s, styleWF s → styleWF (applyStyleOps ops s) := by
  induction ops with
  | nil => exact fun s h => h
  | cons op rest ih =>
    intro s h
    cases op with
    | add t n => exact ih _ (styleWF_addStyle s t n h)
    | del i => exact ih _ (styleWF_deleteStyle s i h)

theorem memoryWF_addMemory (m : ProjectMemoryStore) (c t sub : String) (n : Nat)
    (h : memoryWF m) : memoryWF (addMemory m c t sub n).1 := by
  unfold addMemory
  cases hf : m.rows.find? (fun r => r.category == c && r.text == t) with
  | some r =>
    refine ⟨?_, ?_⟩
    · rw [List.pairwise_map]
      refine h.1.imp ?_
      intro a b hab
      by_cases ha : a.id == r.id <;> by_cases hb : b.id == r.id <;>
        simpa [ha, hb] using hab
    · intro q hq
      rcases List.mem_map.mp hq with ⟨p, hp, rfl⟩
      by_cases hid : p.id == r.id <;> simpa [hid] using h.2 p hp
  | none =>
    refine ⟨?_, ?_⟩
    · rw [List.pairwise_append]
      refine ⟨h.1, List.pairwise_singleton _ _, ?_⟩
      intro a ha b hb
      rw [List.mem_singleton] at hb
      subst hb
      refine ⟨Nat.ne_of_lt (h.2 a ha), ?_⟩
      have := List.find?_eq_none.mp hf a ha
      simp only [Bool.not_eq_true, Bool.and_eq_false_iff, beq_eq_false_iff_ne] at this
      rcases this with h' | h'
      · exact Or.inl h'
      · exact Or.inr h'
    · intro q hq
      rcases List.mem_append.mp hq with hq | hq
      · exact Nat.lt_trans (h.2 q hq) (Nat.lt_succ_self _)
      · rw [List.mem_singleton] at hq
        subst hq
        exact Nat.lt_succ_self _

theorem memoryWF_deleteMemory (m : ProjectMemoryStore) (i : Nat)
    (h : memoryWF m) : memoryWF (deleteMemory m i).1 := by
  refine ⟨List.Pairwise.sublist (List.filter_sublist _) h.1, ?_⟩
  intro q hq
  exact h.2 q (List.mem_of_mem_filter hq)

theorem memoryWF_applyMemoryOps (ops : List MemoryStoreOp) :
    ∀ m, memoryWF m → memoryWF (applyMemoryOps ops m) := by
  induction ops with
  | nil => exact fun m h => h
  | cons op rest ih =>
    intro m h
    cases op with
    | add c t sub n => exact ih _ (memoryWF_addMemory m c t sub n h)
    | del i => exact ih _ (memoryWF_deleteMemory m i h)

/-- C7: the unique-key invariant is preserved by every operation.  Every
store state reached from the empty store by any sequence of `add` / `delete`
operations has no two records sharing the `text` key (user styles),
respectively the `(category, text)` key (project memories); since the
sequence is arbitrary, the invariant holds at every intermediate state. -/
theorem unique_key_invariant (ops : List StyleStoreOp) (mops : List MemoryStoreOp) :
    (applyStyleOps ops emptyStyleStore).rows.Pairwise (fun a b => a.text ≠ b.text) ∧
    (applyMemoryOps mops emptyMemoryStore).rows.Pairwise
      (fun a b => a.category ≠ b.category ∨ a.text ≠ b.text) := by
  have h₁ := styleWF_applyStyleOps ops emptyStyleStore ⟨List.Pairwise.nil, by simp [emptyStyleStore]⟩
  have h₂ := memoryWF_applyMemoryOps mops emptyMemoryStore ⟨List.Pairwise.nil, by simp [emptyMemoryStore]⟩
  exact ⟨h₁.1.imp (fun h => h.2), h₂.1.imp (fun h => h.2)⟩

theorem pairwise_of_mem {α : Type} {R : α → α → Prop} :
    ∀ (l : List α), (∀ a ∈ l, ∀ b ∈ l, R a b) → l.Pairwise R := by
  intro l
  induction l with
  | nil => intro _; exact List.Pairwise.nil
  | cons x xs ih =>
    intro h
    refine List.pairwise_cons.mpr ⟨fun b hb => h x (by simp) b (by simp [hb]), ?_⟩
    exact ih fun a ha b hb => h a (by simp [ha]) b (by simp [hb])

theorem styleLE_trans : ∀ (a b c : StyleRecord),
    decide (b.useCount ≤ a.useCount) = true →
    decide (c.useCount ≤ b.useCount) = true →
    decide (c.useCount ≤ a.useCount) = true := by
  intro a b c hab hbc
  simp only [decide_eq_true_eq] at hab hbc ⊢
  omega

theorem styleLE_total : ∀ (a b : StyleRecord),
    (decide (b.useCount ≤ a.useCount) || decide (a.useCount ≤ b.useCount)) = true := by
  intro a b
  simp only [Bool.or_eq_true, decide_eq_true_eq]
  omega

theorem memoryLE_trans : ∀ (a b c : MemoryRecord),
    decide (b.useCount ≤ a.useCount) = true →
    decide (c.useCount ≤ b.useCount) = true →
    decide (c.useCount ≤ a.useCount) = true := by
  intro a b c hab hbc
  simp only [decide_eq_true_eq] at hab hbc ⊢
  omega

theorem memoryLE_total : ∀ (a b : MemoryRecord),
    (decide (b.useCount ≤ a.useCount) || decide (a.useCount ≤ b.useCount)) = true := by
  intro a b
  simp only [Bool.or_eq_true, decide_eq_true_eq]
  omega

theorem getAllStyles_stable (s : UserStyleStore) (c : Nat) :
    (getAllStyles s).filter (fun r => r.useCount == c) =
      s.rows.filter (fun r => r.useCount == c) := by
  have hpw : (s.rows.filter (fun r => r.useCount == c)).Pairwise
      (fun a b => decide (b.useCount ≤ a.useCount) = true) := by
    apply pairwise_of_mem
    intro a ha b hb
    have ha' := (List.mem_filter.mp ha).2
    have hb' := (List.mem_filter.mp hb).2
    simp only [beq_iff_eq] at ha' hb'
    simp [ha', hb']
  have hsub : List.Sublist (s.rows.filter (fun r => r.useCount == c)) (getAllStyles s) :=
    List.sublist_mergeSort styleLE_trans styleLE_total hpw (List.filter_sublist _)
  have hsub' : List.Sublist (s.rows.filter (fun r => r.useCount == c))
      ((getAllStyles s).filter (fun r => r.useCount == c)) := by
    have h2 := hsub.filter (fun r => r.useCount == c)
    rwa [List.filter_eq_self.mpr (fun a ha => (List.mem_filter.mp ha).2)] at h2
  have hperm : List.Perm ((getAllStyles s).filter (fun r => r.useCount == c))
      (s.rows.filter (fun r => r.useCount == c)) :=
    (List.mergeSort_perm s.rows _).filter _
  exact (hsub'.eq_of_length hperm.length_eq.symm).symm

theorem getAllMemories_stable (m : ProjectMemoryStore) (c : Nat) :
    (getAllMemories m).filter (fun r => r.useCount == c) =
      m.rows.filter (fun r => r.useCount == c) := by
  have hpw : (m.rows.filter (fun r => r.useCount == c)).Pairwise
      (fun a b => decide (b.useCount ≤ a.useCount) = true) := by
    apply pairwise_of_mem
    intro a ha b hb
    have ha' := (List.mem_filter.mp ha).2
    have hb' := (List.mem_filter.mp hb).2
    simp only [beq_iff_eq] at ha' hb'
    simp [ha', hb']
  have hsub : List.Sublist (m.rows.filter (fun r => r.useCount == c)) (getAllMemories m) :=
    List.sublist_mergeSort memoryLE_trans memoryLE_total hpw (List.filter_sublist _)
  have hsub' : List.Sublist (m.rows.filter (fun r => r.useCount == c))
      ((getAllMemories m).filter (fun r => r.useCount == c)) := by
    have h2 := hsub.filter (fun r => r.useCount == c)
    rwa [List.filter_eq_self.mpr (fun a ha => (List.mem_filter.mp ha).2)] at h2
  have hperm : List.Perm ((getAllMemories m).filter (fun r => r.useCount == c))
      (m.rows.filter (fun r => r.useCount == c)) :=
    (List.mergeSort_perm m.rows _).filter _
  exact (hsub'.eq_of_length hperm.length_eq.symm).symm

/-- C9: `get_all` returns all records of the store (a permutation of the
stored rows), in non-increasing `use_count` order, with ties broken by
insertion order: for every `use_count` value, the records carrying it appear
in exactly their stored (insertion) order. -/
theorem get_all_ordering (s : UserStyleStore) (m : ProjectMemoryStore) :
    ((getAllStyles s).Pairwise (fun a b => b.useCount ≤ a.useCount) ∧
     List.Perm (getAllStyles s) s.rows ∧
     ∀ c : Nat, (getAllStyles s).filter (fun r => r.useCount == c) =
       s.rows.filter (fun r => r.useCount == c)) ∧
    ((getAllMemories m).Pairwise (fun a b => b.useCount ≤ a.useCount) ∧
     List.Perm (getAllMemories m) m.rows ∧
     ∀ c : Nat, (getAllMemories m).filter (fun r => r.useCount == c) =
       m.rows.filter (fun r => r.useCount == c)) := by
  refine ⟨⟨?_, List.mergeSort_perm s.rows _, getAllStyles_stable s⟩,
          ⟨?_, List.mergeSort_perm m.rows _, getAllMemories_stable m⟩⟩
  · exact (List.sorted_mergeSort styleLE_trans styleLE_total s.rows).imp
      (fun h => of_decide_eq_true h)
  · exact (List.sorted_mergeSort memoryLE_trans memoryLE_total m.rows).imp
      (fun h => of_decide_eq_true h)

/-- C8: an episode with no user-role turn makes `process_episode` return
`skipped=true` with the fixed reason string `"No user messages in episode"`
before any other stage runs: no storage writes occur — both stores come back
exactly as they went in. -/
theorem empty_episode_early_exit
    (scan : List String → ScannerOut) (extract : String → String → ExtractorOut)
    (events : List EpisodeEvent) (ust : UserStyleStore) (pst : ProjectMemoryStore)
    (now : Nat) (h : ∀ e ∈ events, e.role ≠ "user") :
    processEpisode scan extract events ust pst now =
      .ok (⟨true, some "No user messages in episode", [], []⟩, ust, pst) := by
  have hempty : extractUserMessages events = [] := by
    unfold extractUserMessages
    rw [List.filterMap_eq_nil_iff]
    intro e he
    simp [h e he]
  unfold processEpisode
  rw [hempty]
  rfl

/-- Witness for C8: a one-event assistant-only episode with trivial oracles
and empty stores. -/
theorem empty_episode_early_exit_witness :
    (∀ e ∈ [(⟨"assistant", "hi"⟩ : EpisodeEvent)], e.role ≠ "user") ∧
    processEpisode (fun _ => ⟨true, [0]⟩) (fun _ _ => ⟨[], []⟩)
      [⟨"assistant", "hi"⟩] emptyStyleStore emptyMemoryStore 3 =
      .ok (⟨true, some "No user messages in episode", [], []⟩,
           emptyStyleStore, emptyMemoryStore) :=
  ⟨by decide, empty_episode_early_exit _ _ _ _ _ _ (by decide)⟩

/-- C3 counterexample: with a storage upsert that fails on text `"a"`, the
persist loop over the batch `[ADD "a", ADD "b"]` stops at the failure — the
sibling operation `"b"` is never attempted, so a single failing operation
does abort its siblings, contrary to the claim. -/
theorem persist_isolation_counterexample :
    (persistStyleAttempts (fun t => t == "a")
      [⟨.ADD, some "a", none⟩, ⟨.ADD, some "b", none⟩]).1 = ["a"] ∧
    "b" ∉ (persistStyleAttempts (fun t => t == "a")
      [⟨.ADD, some "a", none⟩, ⟨.ADD, some "b", none⟩]).1 ∧
    (persistStyleAttempts (fun t => t == "a")
      [⟨.ADD, some "a", none⟩, ⟨.ADD, some "b", none⟩]).2 = false := by
  refine ⟨rfl, by decide, rfl⟩

/-- C3 amended: persistence in the persist stage is not per-operation
isolated.  The loop attempts the upserts of the non-empty texts of the batch in
order only up to and including the first failing one; the exception then
propagates (completion flag `false`) and the remaining operations are never
attempted.  When no upsert fails, every non-empty-text operation is
attempted and the loop completes. -/
theorem persist_abort_on_failure (failOn : String → Bool) (ops : List UserStyleOp) :
    persistStyleAttempts failOn ops =
      (takeThroughFail failOn (styleTexts ops), !(styleTexts ops).any failOn) := by
  induction ops with
  | nil => rfl
  | cons op rest ih =>
    cases htext : op.text with
    | none =>
      simp only [persistStyleAttempts, htext, styleTexts, List.filterMap_cons]
      exact ih
    | some t =>
      by_cases ht : t = ""
      · subst ht
        simp only [persistStyleAttempts, htext, styleTexts, List.filterMap_cons,
          if_pos rfl]
        exact ih
      · cases hfail : failOn t with
        | true =>
          simp [persistStyleAttempts, htext, styleTexts, List.filterMap_cons, ht,
            hfail, takeThroughFail]
        | false =>
          simp [persistStyleAttempts, htext, styleTexts, List.filterMap_cons, ht,
            hfail, takeThroughFail, ih]

/-- C6 counterexample: a DELETE operation carrying a target id is not passed
through to the delete primitive of the storage layer — the persist stage leaves
the store unchanged (the targeted record survives), whereas the delete
primitive applied to that id would remove it. -/
theorem persist_dispatch_counterexample :
    persistUserStyles [⟨.DELETE, none, some 0⟩] ⟨[⟨0, "x", 1, 0, 0⟩], 1⟩ 5 =
      ⟨[⟨0, "x", 1, 0, 0⟩], 1⟩ ∧
    (deleteStyle ⟨[⟨0, "x", 1, 0, 0⟩], 1⟩ 0).1.rows = [] ∧
    (⟨[⟨0, "x", 1, 0, 0⟩], 1⟩ : UserStyleStore).rows ≠ [] := by
  refine ⟨rfl, rfl, by decide⟩

/-- C6 amended: the persist stage dispatches every operation with non-empty
text — regardless of its op kind — to the storage upsert `add`, in
batch order, and does nothing else: UPDATE operations with text are applied
as upserts of that text, DELETE operations (no text) are skipped outright,
and target ids are never consulted.  For project memories the same holds
provided every non-empty-text operation carries a category (a missing
category makes the underlying insert raise instead). -/
theorem persist_dispatch_characterization
    (ops : List UserStyleOp) (s : UserStyleStore)
    (mops : List ProjectMemoryOp) (m : ProjectMemoryStore) (now : Nat)
    (hcat : ∀ op ∈ mops, op.text.getD "" ≠ "" → op.category.isSome) :
    persistUserStyles ops s now =
      (styleTexts ops).foldl (fun st t => (addStyle st t now).1) s ∧
    persistProjectMemories mops m now =
      .ok ((memoryKeys mops).foldl
        (fun st ct => (addMemory st ct.1 ct.2 "main" now).1) m) := by
  constructor
  · induction ops generalizing s with
    | nil => rfl
    | cons op rest ih =>
      cases htext : op.text with
      | none =>
        simp only [persistUserStyles, htext, styleTexts, List.filterMap_cons]
        exact ih s
      | some t =>
        by_cases ht : t = ""
        · subst ht
          simp only [persistUserStyles, htext, styleTexts, List.filterMap_cons,
            if_pos rfl]
          exact ih s
        · simp only [persistUserStyles, htext, styleTexts, List.filterMap_cons,
            if_neg ht, List.foldl_cons]
          exact ih _
  · revert hcat
    induction mops generalizing m with
    | nil => intro _; rfl
    | cons op rest ih =>
      intro hcat
      have hcat' : ∀ p ∈ rest, p.text.getD "" ≠ "" → p.category.isSome :=
        fun p hp => hcat p (List.mem_cons_of_mem _ hp)
      cases htext : op.text with
      | none =>
        simp only [persistProjectMemories, htext, memoryKeys, List.filterMap_cons]
        exact ih m hcat'
      | some t =>
        by_cases ht : t = ""
        · subst ht
          cases hc : op.category with
          | none =>
            simp only [persistProjectMemories, htext, memoryKeys,
              List.filterMap_cons, hc, if_pos rfl, if_true]
            exact ih m hcat'
          | some c =>
            simp only [persistProjectMemories, htext, memoryKeys,
              List.filterMap_cons, hc, if_pos rfl, if_true]
            exact ih m hcat'
        · have hsome : op.category.isSome := by
            apply hcat op (List.mem_cons_self _ _)
            simp [htext, ht]
          rcases Option.isSome_iff_exists.mp hsome with ⟨c, hc⟩
          simp only [persistProjectMemories, htext, memoryKeys, List.filterMap_cons,
            hc, if_neg ht, List.foldl_cons]
          exact ih _ hcat'

/-- Witness for the amended C6 theorem: a concrete batch holding an ADD, an
UPDATE with text (applied as an upsert) and a DELETE (skipped). -/
theorem persist_dispatch_characterization_witness :
    (∀ op ∈ [(⟨.ADD, some "c", some "main", some "z", none⟩ : ProjectMemoryOp),
             ⟨.DELETE, none, none, none, some 4⟩],
      op.text.getD "" ≠ "" → op.category.isSome) ∧
    persistUserStyles [⟨.ADD, some "x", none⟩, ⟨.UPDATE, some "y", some 9⟩,
        ⟨.DELETE, none, some 0⟩] emptyStyleStore 3 =
      (styleTexts [⟨.ADD, some "x", none⟩, ⟨.UPDATE, some "y", some 9⟩,
        ⟨.DELETE, none, some 0⟩]).foldl (fun st t => (addStyle st t 3).1)
        emptyStyleStore ∧
    persistProjectMemories [⟨.ADD, some "c", some "main", some "z", none⟩,
        ⟨.DELETE, none, none, none, some 4⟩] emptyMemoryStore 3 =
      .ok ((memoryKeys [⟨.ADD, some "c", some "main", some "z", none⟩,
        ⟨.DELETE, none, none, none, some 4⟩]).foldl
          (fun st ct => (addMemory st ct.1 ct.2 "main" 3).1) emptyMemoryStore) := by
  have h := persist_dispatch_characterization
    [⟨.ADD, some "x", none⟩, ⟨.UPDATE, some "y", some 9⟩, ⟨.DELETE, none, some 0⟩]
    emptyStyleStore
    [⟨.ADD, some "c", some "main", some "z", none⟩, ⟨.DELETE, none, none, none, some 4⟩]
    emptyMemoryStore 3 (by decide)
  exact ⟨by decide, h.1, h.2⟩

/-- C4 counterexample: with an assistant event preceding the first user turn
and trigger index 3, exactly 3 user turns precede the trigger, so the claim
places the window start at user turn 0 (episode index 1, slice
`events[1:4]`); the code instead starts at episode index 0 (`start_turn > 0`
is false), including the leading assistant event. -/
theorem context_window_counterexample :
    aiTurnEvents [⟨"assistant", "a0"⟩, ⟨"user", "u0"⟩, ⟨"user", "u1"⟩,
        ⟨"user", "u2"⟩, ⟨"user", "u3"⟩] 3 =
      ([⟨"assistant", "a0"⟩, ⟨"user", "u0"⟩, ⟨"user", "u1"⟩,
        ⟨"user", "u2"⟩, ⟨"user", "u3"⟩] : List EpisodeEvent).take 4 ∧
    ([⟨"assistant", "a0"⟩, ⟨"user", "u0"⟩, ⟨"user", "u1"⟩,
        ⟨"user", "u2"⟩, ⟨"user", "u3"⟩] : List EpisodeEvent).take 4 ≠
      (([⟨"assistant", "a0"⟩, ⟨"user", "u0"⟩, ⟨"user", "u1"⟩,
        ⟨"user", "u2"⟩, ⟨"user", "u3"⟩] : List EpisodeEvent).drop 1).take 3 := by
  refine ⟨by decide, by decide⟩

/-- C4 amended: for an in-range trigger index `t`, the context window is the
contiguous slice of the episode ending immediately before the trigger turn
and starting at the position of user turn `t − 3` when `t > 3`, and at
episode index 0 when `t ≤ 3` (including `t = 3`: the source test
`start_turn > 0` selects the episode start even though user turn 0 may
lie later).  The window is a sublist of the episode, preserving original
order, and the string handed to extraction tags each event with its role
label. -/
theorem context_window_amended (events : List EpisodeEvent) (t : Nat)
    (h : t < (userIndices events).length) :
    (aiTurnEvents events t =
      if 3 < t then
        (events.drop ((userIndices events).getD (t - 3) 0)).take
          ((userIndices events).getD t 0 - (userIndices events).getD (t - 3) 0)
      else events.take ((userIndices events).getD t 0)) ∧
    List.Sublist (aiTurnEvents events t) events ∧
    getAiTurns events t = String.intercalate "\n"
      ((aiTurnEvents events t).map
        (fun e => "[" ++ e.role ++ "] " ++ e.content_summary)) := by
  have hguard : ¬ t ≥ (userIndices events).length := Nat.not_le.mpr h
  have hmain : aiTurnEvents events t =
      if 3 < t then
        (events.drop ((userIndices events).getD (t - 3) 0)).take
          ((userIndices events).getD t 0 - (userIndices events).getD (t - 3) 0)
      else events.take ((userIndices events).getD t 0) := by
    unfold aiTurnEvents
    rw [if_neg hguard]
    by_cases h3 : 3 < t
    · have hpos : t - 3 > 0 := by omega
      rw [if_pos h3]
      simp only [if_pos hpos]
    · have hpos : ¬ t - 3 > 0 := by omega
      rw [if_neg h3]
      simp only [if_neg hpos, List.drop_zero, Nat.sub_zero]
  refine ⟨hmain, ?_, rfl⟩
  rw [hmain]
  by_cases h3 : 3 < t
  · rw [if_pos h3]
    exact ((List.take_sublist _ _).trans (List.drop_sublist _ _))
  · rw [if_neg h3]
    exact List.take_sublist _ _

/-- Witness for the amended C4 theorem, at the example given in the claim: 6 user
turns and trigger index 4 — the window is `events[1:4]`, starting at user
turn 1. -/
theorem context_window_amended_witness :
    4 < (userIndices [⟨"user", "m0"⟩, ⟨"user", "m1"⟩, ⟨"user", "m2"⟩,
        ⟨"user", "m3"⟩, ⟨"user", "m4"⟩, ⟨"user", "m5"⟩]).length ∧
    aiTurnEvents [⟨"user", "m0"⟩, ⟨"user", "m1"⟩, ⟨"user", "m2"⟩,
        ⟨"user", "m3"⟩, ⟨"user", "m4"⟩, ⟨"user", "m5"⟩] 4 =
      (([⟨"user", "m0"⟩, ⟨"user", "m1"⟩, ⟨"user", "m2"⟩, ⟨"user", "m3"⟩,
        ⟨"user", "m4"⟩, ⟨"user", "m5"⟩] : List EpisodeEvent).drop 1).take 3 := by
  have h := context_window_amended [⟨"user", "m0"⟩, ⟨"user", "m1"⟩, ⟨"user", "m2"⟩,
    ⟨"user", "m3"⟩, ⟨"user", "m4"⟩, ⟨"user", "m5"⟩] 4 (by decide)
  refine ⟨by decide, ?_⟩
  rw [h.1]
  decide

/-! ## Transport theorems -/

theorem hasPre_append (pat : List Char) :
    ∀ (text rest : List Char), hasPre pat text = true →
      hasPre pat (text ++ rest) = true := by
  induction pat with
  | nil => intro text rest _; rfl
  | cons p ps ih =>
    intro text rest h
    cases text with
    | nil => cases h
    | cons c cs =>
      simp only [hasPre, Bool.and_eq_true, beq_iff_eq] at h
      simp only [List.cons_append, hasPre, Bool.and_eq_true, beq_iff_eq]
      exact ⟨h.1, ih cs rest h.2⟩

theorem hasSubList_of_hasPre (pat text : List Char) (h : hasPre pat text = true) :
    hasSubList pat text = true := by
  cases text with
  | nil => simpa [hasSubList] using h
  | cons c cs => simp [hasSubList, h]

theorem hasPre_refl : ∀ (l : List Char), hasPre l l = true := by
  intro l
  induction l with
  | nil => rfl
  | cons c cs ih => simp [hasPre, ih]

theorem hasSubList_suffix : ∀ (pre pat : List Char),
    hasSubList pat (pre ++ pat) = true := by
  intro pre pat
  induction pre with
  | nil => exact hasSubList_of_hasPre pat pat (hasPre_refl pat)
  | cons c cs ih =>
    cases pat with
    | nil => simp [hasSubList_of_hasPre [] _ rfl]
    | cons q qs => simp [hasSubList, ih]

theorem strHasSub_parse_prefix (e : String) :
    strHasSub ("Parse error: " ++ e) "Parse error" = true := by
  unfold strHasSub
  rw [String.data_append]
  apply hasSubList_of_hasPre
  apply hasPre_append
  decide

theorem strHasSub_suffix (pre m : String) :
    strHasSub (pre ++ m) m = true := by
  unfold strHasSub
  rw [String.data_append]
  exact hasSubList_suffix pre.data m.data

/-- C2 counterexample: the valid JSON value `5` lacks the `"jsonrpc":"2.0"`
version marker, yet the transport does not answer with code -32600: the
version check `obj.get("jsonrpc")` raises `AttributeError` on the non-dict
value, which the `except ValueError` clause of `_handle_request` does not catch, so no
error response is produced at all. -/
theorem transport_error_codes_counterexample :
    handleRequest (.ok (.num 5)) [] = .attributeError ∧
    ∀ r : RPCResponse, handleRequest (.ok (.num 5)) [] ≠ .ok r := by
  refine ⟨rfl, ?_⟩
  intro r h
  exact PyOutcome.noConfusion h

/-- C2 amended: error codes of the transport.  A line that is not valid JSON
is answered with code exactly -32700; a valid JSON **object** (a non-object
JSON value instead raises an uncaught `AttributeError`) lacking the
`"jsonrpc":"2.0"` marker, lacking a string `method`, or carrying a
non-mapping `params` is answered with code -32600; a well-formed request
naming an unregistered method is answered with code -32601 and the error
message contains the method name. -/
theorem transport_error_codes
    (hs : List (String × MethodHandler)) (e : String)
    (fields : List (String × Json)) (req : RPCRequest) :
    (handleRequest (.error e) hs =
      .ok (.error (-32700) ("Parse error: " ++ e) none)) ∧
    (versionOk fields = false →
      handleRequest (.ok (.obj fields)) hs =
        .ok (.error (-32600) "Invalid JSON-RPC version" none)) ∧
    (versionOk fields = true → methodStr fields = none →
      handleRequest (.ok (.obj fields)) hs =
        .ok (.error (-32600) "Missing or invalid method" none)) ∧
    (versionOk fields = true → ∀ m, methodStr fields = some m →
      paramsField fields = none →
      handleRequest (.ok (.obj fields)) hs =
        .ok (.error (-32600) "Params must be object" none)) ∧
    (fromJson (.ok (.obj fields)) = .ok req →
      hs.find? (fun p => p.1 == req.method) = none →
      handleRequest (.ok (.obj fields)) hs =
        .ok (.error (-32601) ("Method not found: " ++ req.method) req.id) ∧
      strHasSub ("Method not found: " ++ req.method) req.method = true) := by
  refine ⟨?_, ?_, ?_, ?_, ?_⟩
  · simp [handleRequest, fromJson, strHasSub_parse_prefix]
  · intro hv
    have hfalse : strHasSub "Invalid JSON-RPC version" "Parse error" = false := by
      decide
    simp [handleRequest, fromJson, hv, hfalse]
  · intro hv hm
    have hfalse : strHasSub "Missing or invalid method" "Parse error" = false := by
      decide
    simp [handleRequest, fromJson, hv, hm, hfalse]
  · intro hv m hm hp
    have hfalse : strHasSub "Params must be object" "Parse error" = false := by
      decide
    simp [handleRequest, fromJson, hv, hm, hp, hfalse]
  · intro hreq hfind
    constructor
    · unfold handleRequest
      rw [hreq]
      simp [hfind]
    · exact strHasSub_suffix "Method not found: " req.method

/-- Witness for the amended C2 theorem: concrete instances for each error
class — a parse failure, a missing version marker, a missing method, a
non-mapping `params`, and an unregistered method. -/
theorem transport_error_codes_witness :
    versionOk [] = false ∧
    handleRequest (.ok (.obj [])) [] =
      .ok (.error (-32600) "Invalid JSON-RPC version" none) ∧
    handleRequest (.ok (.obj [("jsonrpc", Json.str "2.0")])) [] =
      .ok (.error (-32600) "Missing or invalid method" none) ∧
    handleRequest (.ok (.obj [("jsonrpc", Json.str "2.0"),
        ("method", Json.str "m"), ("params", Json.num 1)])) [] =
      .ok (.error (-32600) "Params must be object" none) ∧
    fromJson (.ok (.obj [("jsonrpc", Json.str "2.0"), ("method", Json.str "mm")])) =
      .ok ⟨"mm", [], none⟩ ∧
    handleRequest (.ok (.obj [("jsonrpc", Json.str "2.0"),
        ("method", Json.str "mm")])) [] =
      .ok (.error (-32601) "Method not found: mm" none) := by
  have h1 := transport_error_codes [] "x" [] ⟨"mm", [], none⟩
  have h2 := transport_error_codes [] "x" [("jsonrpc", Json.str "2.0")] ⟨"mm", [], none⟩
  have h3 := transport_error_codes [] "x" [("jsonrpc", Json.str "2.0"),
    ("method", Json.str "m"), ("params", Json.num 1)] ⟨"mm", [], none⟩
  have h4 := transport_error_codes [] "x" [("jsonrpc", Json.str "2.0"),
    ("method", Json.str "mm")] ⟨"mm", [], none⟩
  refine ⟨rfl, h1.2.1 rfl, h2.2.2.1 rfl rfl, h3.2.2.2.1 rfl "m" rfl rfl, rfl, ?_⟩
  have h5 := (h4.2.2.2.2 rfl rfl).1
  simpa using h5

theorem handleRequest_of_fromJson_ok (hs : List (String × MethodHandler))
    (data : Except String Json) (req : RPCRequest)
    (hreq : fromJson data = .ok req) :
    handleRequest data hs =
      (match (hs.find? (fun p => p.1 == req.method)).map (fun p => p.2) with
       | none => PyOutcome.ok (.error (-32601) ("Method not found: " ++ req.method) req.id)
       | some h =>
         match h req.params with
         | .ok v => PyOutcome.ok (.success v req.id)
         | .exc (some c) m => PyOutcome.ok (.error c m req.id)
         | .exc none m => PyOutcome.ok (.error (-32603) ("Internal error: " ++ m) req.id)) := by
  unfold handleRequest
  rw [hreq]

theorem handleRequest_of_fromJson_valueError (hs : List (String × MethodHandler))
    (data : Except String Json) (msg : String)
    (hmsg : fromJson data = .valueError msg) :
    handleRequest data hs =
      .ok (.error (if strHasSub msg "Parse error" then -32700 else -32600) msg none) := by
  unfold handleRequest
  rw [hmsg]

theorem fromJson_obj_eq (fields : List (String × Json)) :
    fromJson (.ok (.obj fields)) =
      (if versionOk fields then
        match methodStr fields with
        | some m =>
          match paramsField fields with
          | some ps => ParseOutcome.ok ⟨m, ps, jlookup fields "id"⟩
          | none => ParseOutcome.valueError "Params must be object"
        | none => ParseOutcome.valueError "Missing or invalid method"
      else ParseOutcome.valueError "Invalid JSON-RPC version") := rfl

/-- C5 counterexample: a parseable JSON request that carries id 7 but is
structurally invalid (no `method` field) is answered with id `null`, not
with its own id echoed — `request_id` is only assigned after `from_json`
succeeds. -/
theorem request_id_echo_counterexample :
    handleRequest (.ok (.obj [("jsonrpc", Json.str "2.0"), ("id", Json.num 7)])) [] =
      .ok (.error (-32600) "Missing or invalid method" none) ∧
    (none : Option Json) ≠ some (Json.num 7) := by
  refine ⟨rfl, by simp⟩

/-- C5 amended: the response id equals the request id for every request that
passes envelope validation — on the success path, the handler-error path and
the method-not-found path — and that id is exactly the wire `id` member
(absent id echoed as null).  A line that fails JSON parsing *or envelope
validation* is answered with id null, even when the line carried an id. -/
theorem request_id_echo
    (hs : List (String × MethodHandler)) (e msg : String)
    (fields : List (String × Json)) (req : RPCRequest) (resp : RPCResponse) :
    (fromJson (.ok (.obj fields)) = .ok req →
      handleRequest (.ok (.obj fields)) hs = .ok resp → respId resp = req.id) ∧
    (fromJson (.ok (.obj fields)) = .ok req → req.id = jlookup fields "id") ∧
    (handleRequest (.error e) hs = .ok resp → respId resp = none) ∧
    (fromJson (.ok (.obj fields)) = .valueError msg →
      handleRequest (.ok (.obj fields)) hs = .ok resp → respId resp = none) := by
  refine ⟨?_, ?_, ?_, ?_⟩
  · intro hreq hresp
    rw [handleRequest_of_fromJson_ok hs _ req hreq] at hresp
    split at hresp
    · cases hresp; rfl
    · split at hresp
      · cases hresp; rfl
      · cases hresp; rfl
      · cases hresp; rfl
  · intro hreq
    rw [fromJson_obj_eq] at hreq
    split at hreq
    · split at hreq
      · split at hreq
        · cases hreq; rfl
        · cases hreq
      · cases hreq
    · cases hreq
  · intro hresp
    have hv : fromJson (Except.error e : Except String Json) =
        .valueError ("Parse error: " ++ e) := rfl
    rw [handleRequest_of_fromJson_valueError hs _ _ hv] at hresp
    cases hresp
    rfl
  · intro hmsg hresp
    rw [handleRequest_of_fromJson_valueError hs _ _ hmsg] at hresp
    cases hresp
    rfl

/-- Witness for the amended C5 theorem: a well-formed request carrying id 7
and no matching handler — the -32601 error response echoes id 7. -/
theorem request_id_echo_witness :
    fromJson (.ok (.obj [("jsonrpc", Json.str "2.0"), ("method", Json.str "mm"),
        ("id", Json.num 7)])) = .ok ⟨"mm", [], some (Json.num 7)⟩ ∧
    handleRequest (.ok (.obj [("jsonrpc", Json.str "2.0"), ("method", Json.str "mm"),
        ("id", Json.num 7)])) [] =
      .ok (.error (-32601) "Method not found: mm" (some (Json.num 7))) ∧
    respId (.error (-32601) "Method not found: mm" (some (Json.num 7))) =
      some (Json.num 7) := by
  refine ⟨rfl, rfl, ?_⟩
  exact (request_id_echo [] "x" "y"
    [("jsonrpc", Json.str "2.0"), ("method", Json.str "mm"), ("id", Json.num 7)]
    ⟨"mm", [], some (Json.num 7)⟩
    (.error (-32601) "Method not found: mm" (some (Json.num 7)))).1 rfl rfl

/-- C10 counterexample: request handling is not total on all input lines —
the line parsing to the valid JSON value `[]` (not an object) makes
`_handle_request` raise an uncaught `AttributeError` instead of returning a
response; `_handle_client` then drops the connection without replying. -/
theorem handle_request_total_counterexample :
    handleRequest (.ok (.arr [])) [] = .attributeError := rfl

/-- C10 amended: `_handle_request` returns exactly one response envelope —
and never propagates an exception — on every line that fails JSON parsing
and on every line parsing to a JSON object, whatever the registered handlers
do (return any value, or raise with or without a numeric `code` attribute).
A line parsing to a non-object JSON value instead raises `AttributeError`
out of `_handle_request`; the connection loop catches it by terminating the
connection, so such a line gets no response. -/
theorem handle_request_total (hs : List (String × MethodHandler)) (e : String)
    (fields : List (String × Json)) :
    (∃ r, handleRequest (.error e) hs = .ok r) ∧
    (∃ r, handleRequest (.ok (.obj fields)) hs = .ok r) := by
  constructor
  · exact ⟨_, rfl⟩
  · cases hv : versionOk fields with
    | false =>
      have hfalse : strHasSub "Invalid JSON-RPC version" "Parse error" = false := by
        decide
      exact ⟨.error (-32600) "Invalid JSON-RPC version" none,
        by simp [handleRequest, fromJson, hv, hfalse]⟩
    | true =>
      cases hm : methodStr fields with
      | none =>
        have hfalse : strHasSub "Missing or invalid method" "Parse error" = false := by
          decide
        exact ⟨.error (-32600) "Missing or invalid method" none,
          by simp [handleRequest, fromJson, hv, hm, hfalse]⟩
      | some m =>
        cases hp : paramsField fields with
        | none =>
          have hfalse : strHasSub "Params must be object" "Parse error" = false := by
            decide
          exact ⟨.error (-32600) "Params must be object" none,
            by simp [handleRequest, fromJson, hv, hm, hp, hfalse]⟩
        | some ps =>
          cases hfind : (hs.find? (fun p => p.1 == m)).map (fun p => p.2) with
          | none =>
            exact ⟨.error (-32601) ("Method not found: " ++ m) (jlookup fields "id"),
              by simp [handleRequest, fromJson, hv, hm, hp, hfind]⟩
          | some h =>
            cases hout : h ps with
            | ok v =>
              exact ⟨.success v (jlookup fields "id"),
                by simp [handleRequest, fromJson, hv, hm, hp, hfind, hout]⟩
            | exc c msg =>
              cases c with
              | none =>
                exact ⟨.error (-32603) ("Internal error: " ++ msg) (jlookup fields "id"),
                  by simp [handleRequest, fromJson, hv, hm, hp, hfind, hout]⟩
              | some cv =>
                exact ⟨.error cv msg (jlookup fields "id"),
                  by simp [handleRequest, fromJson, hv, hm, hp, hfind, hout]⟩
